import Mathlib

/-!
Verification development for the nadocast monitor service.

The TypeScript sources (scraper.ts, bluesky_notifier.ts, config.ts,
state_manager.ts, image_fetcher.ts) are shallowly embedded below.  Strings
are modelled as `List Char`; network and filesystem effects are modelled by
passing page contents, per-call outcomes and file contents explicitly; retry
loops are modelled by structural recursion on the remaining loop budget so
that every definition is executable.
-/

/-! ## Generic character-list helpers -/

/-- Character-list test: `leadsWith l p` holds when `p` is a leading segment
of `l` (models JavaScript `String.startsWith` and regex literal matching). -/
def leadsWith : List Char → List Char → Bool
  | _, [] => true
  | [], _ :: _ => false
  | a :: l, b :: p => a == b && leadsWith l p

/-- Character-list test: `endsWith l p` holds when `p` is a trailing segment
of `l` (models regex `$`-anchored literal matching). -/
def endsWith (l p : List Char) : Bool := leadsWith l.reverse p.reverse

/-- Substring test: `hasSub l t` holds when `t` occurs contiguously in `l`
(models JavaScript `String.includes`). -/
def hasSub : List Char → List Char → Bool
  | [], t => leadsWith [] t
  | a :: l, t => leadsWith (a :: l) t || hasSub l t

/-- Lexicographic comparison of character lists by code point, the order
JavaScript uses for `string < string` / `string > string` comparisons. -/
def strLt : List Char → List Char → Bool
  | _, [] => false
  | [], _ :: _ => true
  | a :: l, b :: m =>
    if a.toNat < b.toNat then true
    else if b.toNat < a.toNat then false
    else strLt l m

theorem leadsWith_refl_append (p r : List Char) : leadsWith (p ++ r) p = true := by
  induction p with
  | nil => cases r <;> rfl
  | cons a p ih => simp [leadsWith, ih]

theorem leadsWith_append_right {l p : List Char} (r : List Char)
    (h : leadsWith l p = true) : leadsWith (l ++ r) p = true := by
  induction p generalizing l with
  | nil => cases l ++ r <;> rfl
  | cons b ps ih =>
    cases l with
    | nil => exact absurd h (by simp [leadsWith])
    | cons a ls =>
      simp only [leadsWith, Bool.and_eq_true] at h ⊢
      exact ⟨h.1, ih h.2⟩

theorem leadsWith_single {l : List Char} {c : Char}
    (h : leadsWith l [c] = true) : ∃ t, l = c :: t := by
  cases l with
  | nil => exact absurd h (by simp [leadsWith])
  | cons a t =>
    simp only [leadsWith, Bool.and_eq_true, beq_iff_eq] at h
    exact ⟨t, by rw [h.1]⟩

theorem strLt_irrefl (l : List Char) : strLt l l = false := by
  induction l with
  | nil => rfl
  | cons a t ih => simp [strLt, ih]

theorem strLt_trans : ∀ {a b c : List Char},
    strLt a b = true → strLt b c = true → strLt a c = true
  | a, b, [], _, h2 => absurd h2 (by cases b <;> simp [strLt])
  | [], b, _ :: _, _, _ => by simp [strLt]
  | x :: xs, b, z :: zs, h1, h2 => by
    cases b with
    | nil => exact absurd h1 (by simp [strLt])
    | cons y ys =>
      have e1 : x.toNat < y.toNat ∨ (x.toNat = y.toNat ∧ strLt xs ys = true) := by
        simp only [strLt] at h1
        split_ifs at h1 with hl hg
        · exact Or.inl hl
        · exact Or.inr ⟨by omega, h1⟩
      have e2 : y.toNat < z.toNat ∨ (y.toNat = z.toNat ∧ strLt ys zs = true) := by
        simp only [strLt] at h2
        split_ifs at h2 with hl hg
        · exact Or.inl hl
        · exact Or.inr ⟨by omega, h2⟩
      simp only [strLt]
      rcases e1 with hl1 | ⟨he1, hr1⟩ <;> rcases e2 with hl2 | ⟨he2, hr2⟩
      · rw [if_pos (by omega)]
      · rw [if_pos (by omega)]
      · rw [if_pos (by omega)]
      · rw [if_neg (by omega), if_neg (by omega)]
        exact strLt_trans hr1 hr2

theorem strLt_asymm {a b : List Char} (h : strLt a b = true) : strLt b a = false := by
  cases hc : strLt b a with
  | false => rfl
  | true => exact absurd (strLt_trans h hc) (by simp [strLt_irrefl])

theorem strLt_not_lt_trans {v w v2 : List Char} (h1 : strLt v w = false)
    (h2 : strLt v v2 = true) : strLt v2 w = false := by
  cases hc : strLt v2 w with
  | false => rfl
  | true => exact absurd (strLt_trans h2 hc) (by simp [h1])

/-! ## URL resolution (models Node `new URL(href, base).toString()` for the
href shapes this service produces: scheme-absolute hrefs are kept, hrefs
starting with `/` are joined to the origin of the base URL, and other hrefs
are joined to the directory of the base URL; query strings and `..` segments
do not occur in these directory listings). -/

/-- Splits a URL at the first `://`, returning the part up to and including
the separator and the remainder. -/
def splitScheme : List Char → Option (List Char × List Char)
  | [] => none
  | ':' :: '/' :: '/' :: rest => some ([':', '/', '/'], rest)
  | c :: rest =>
    match splitScheme rest with
    | none => none
    | some (p, a) => some (c :: p, a)

/-- Origin of a URL: scheme, separator and host, without the path. -/
def originOf (base : List Char) : List Char :=
  match splitScheme base with
  | none => base
  | some (p, a) => p ++ a.takeWhile (fun c => !(c == '/'))

/-- Directory of a URL: everything up to and including the last `/`. -/
def dirOf (base : List Char) : List Char :=
  (base.reverse.dropWhile (fun c => !(c == '/'))).reverse

/-- Whether an href already carries an http or https scheme. -/
def startsHttp (href : List Char) : Bool :=
  leadsWith href (("http://").data) || leadsWith href (("https://").data)

/-- Resolution of an href against a base URL. -/
def resolveUrl (base href : List Char) : List Char :=
  if startsHttp href then href
  else if leadsWith href ['/'] then originOf base ++ href
  else dirOf base ++ href

theorem resolveUrl_eq_append (base href : List Char) :
    ∃ p, resolveUrl base href = p ++ href := by
  unfold resolveUrl
  split_ifs with h1 h2
  · exact ⟨[], rfl⟩
  · exact ⟨originOf base, rfl⟩
  · exact ⟨dirOf base, rfl⟩

/-! ## The directory patterns of scraper.ts

`YEAR_MONTH_REGEX  = /^\/(\d{6})\/$/`
`DAY_REGEX         = /\/(\d{8})\/$/`
`RUN_REGEX         = /\/(t\d{2}z)\/$/`
Each pattern is embedded as a function from an href to the optional captured
token. -/

/-- Digit test for the `\d` character class. -/
def isDigitB (c : Char) : Bool := c.isDigit

/-- All characters are digits (`\d{n}` on the captured body). -/
def digitsOk (l : List Char) : Bool := l.all isDigitB

/-- End-anchored pattern `\/(<token>)\/$` where the token has length `len`
and body test `ok`: the href must end with a slash, preceded by the token,
preceded by a slash.  Returns the captured token. -/
def tokenSuffixPat (ok : List Char → Bool) (len : Nat) (href : List Char) :
    Option (List Char) :=
  if leadsWith href.reverse ['/'] then
    if ((href.reverse.drop 1).take len).length == len
        && ok ((href.reverse.drop 1).take len).reverse
        && leadsWith ((href.reverse.drop 1).drop len) ['/'] then
      some ((href.reverse.drop 1).take len).reverse
    else none
  else none

/-- `DAY_REGEX`: captures the 8-digit date from an href ending `/YYYYMMDD/`. -/
def daySuffixPat : List Char → Option (List Char) := tokenSuffixPat digitsOk 8

/-- The re-extraction regex of `findLatestRunInfo` for the year-month URL,
`\/(\d{6})\/$`. -/
def monthSuffixPat : List Char → Option (List Char) := tokenSuffixPat digitsOk 6

/-- Body test for the run token `t\d{2}z`. -/
def isRunTokenB (t : List Char) : Bool :=
  match t with
  | 't' :: a :: b :: 'z' :: [] => isDigitB a && isDigitB b
  | _ => false

/-- `RUN_REGEX`: captures the `tXXz` run token from an href ending `/tXXz/`. -/
def runSuffixPat : List Char → Option (List Char) := tokenSuffixPat isRunTokenB 4

/-- `YEAR_MONTH_REGEX`: fully anchored `^\/(\d{6})\/$`; the href must be
exactly a slash, six digits and a slash. -/
def yearMonthPat (href : List Char) : Option (List Char) :=
  match href with
  | '/' :: rest =>
    if ((rest.take 6).length == 6) && digitsOk (rest.take 6)
        && (rest.drop 6 == ['/']) then
      some (rest.take 6)
    else none
  | _ => none

theorem tokenSuffixPat_append (ok : List Char → Bool) (len : Nat)
    (p l v : List Char) (h : tokenSuffixPat ok len l = some v) :
    tokenSuffixPat ok len (p ++ l) = some v := by
  unfold tokenSuffixPat at h ⊢
  by_cases h1 : leadsWith l.reverse ['/'] = true
  · obtain ⟨t, ht⟩ := leadsWith_single h1
    rw [if_pos h1, ht] at h
    simp only [List.drop_succ_cons, List.drop_zero] at h
    by_cases h2 : ((((t.take len).length == len) && ok (t.take len).reverse)
        && leadsWith (t.drop len) ['/']) = true
    · rw [if_pos h2] at h
      have hc := h2
      simp only [Bool.and_eq_true, beq_iff_eq] at hc
      have hle : len ≤ t.length := by
        have := hc.1.1
        rw [List.length_take] at this
        omega
      have hrev : (p ++ l).reverse = '/' :: (t ++ p.reverse) := by
        rw [List.reverse_append, ht]
        rfl
      rw [hrev, if_pos (by simp [leadsWith])]
      simp only [List.drop_succ_cons, List.drop_zero]
      rw [List.take_append_of_le_length hle, List.drop_append_of_le_length hle]
      rw [if_pos (by
        simp only [Bool.and_eq_true, beq_iff_eq]
        exact ⟨⟨hc.1.1, hc.1.2⟩, leadsWith_append_right _ hc.2⟩)]
      exact h
    · rw [if_neg h2] at h
      exact absurd h (by simp)
  · rw [if_neg h1] at h
    exact absurd h (by simp)

/-! ## Directory Walker: `findLatestDirectoryUrl` of scraper.ts

A listing page is modelled as the list of its anchor elements; the
`directory` flag models whether the anchor carries the `directory` CSS class
that the walker's `$('a.directory')` selector filters on.  The walker scans
the anchors in order keeping the entry with the lexicographically greatest
captured token (strict `>` comparison, so the first maximal entry wins). -/

structure Anchor where
  directory : Bool
  href : List Char
deriving DecidableEq

/-- One iteration of the walker's `.each` loop over `(latestDirValue,
latestDirUrl)`. -/
def scanStep (base : List Char) (pat : List Char → Option (List Char))
    (st : Option (List Char) × Option (List Char)) (a : Anchor) :
    Option (List Char) × Option (List Char) :=
  if a.directory then
    match pat a.href with
    | some v =>
      match st.1 with
      | none => (some v, some (resolveUrl base a.href))
      | some lv =>
        if strLt lv v then (some v, some (resolveUrl base a.href)) else st
    | none => st
  else st

/-- `findLatestDirectoryUrl(pageUrl, patternRegex)`: the URL of the matching
directory link with the greatest captured token, or `none`. -/
def findLatestDirectoryUrl (base : List Char)
    (pat : List Char → Option (List Char)) (page : List Anchor) :
    Option (List Char) :=
  (page.foldl (scanStep base pat) (none, none)).2

theorem scan_from_some (base : List Char) (pat : List Char → Option (List Char)) :
    ∀ (page : List Anchor) (v u : List Char),
    ∃ v2 u2, List.foldl (scanStep base pat) (some v, some u) page = (some v2, some u2) ∧
      ((v2 = v ∧ u2 = u) ∨ ∃ a, a ∈ page ∧ a.directory = true ∧ pat a.href = some v2 ∧
        u2 = resolveUrl base a.href ∧ strLt v v2 = true) ∧
      (∀ b, b ∈ page → b.directory = true → ∀ w, pat b.href = some w →
        strLt v2 w = false) := by
  intro page
  induction page with
  | nil =>
    intro v u
    exact ⟨v, u, rfl, Or.inl ⟨rfl, rfl⟩, by intro b hb; cases hb⟩
  | cons a rest ih =>
    intro v u
    by_cases hd : a.directory = true
    · cases hp : pat a.href with
      | none =>
        have hstep : scanStep base pat (some v, some u) a = (some v, some u) := by
          simp [scanStep, hd, hp]
        rw [List.foldl_cons, hstep]
        obtain ⟨v2, u2, h1, h2, h3⟩ := ih v u
        refine ⟨v2, u2, h1, ?_, ?_⟩
        · rcases h2 with h2 | ⟨a2, hm, hrest⟩
          · exact Or.inl h2
          · exact Or.inr ⟨a2, List.mem_cons_of_mem _ hm, hrest⟩
        · intro b hb hbd w hw
          rcases List.mem_cons.mp hb with rfl | hb2
          · rw [hp] at hw; cases hw
          · exact h3 b hb2 hbd w hw
      | some w =>
        by_cases hlt : strLt v w = true
        · have hstep : scanStep base pat (some v, some u) a =
              (some w, some (resolveUrl base a.href)) := by
            simp [scanStep, hd, hp, hlt]
          rw [List.foldl_cons, hstep]
          obtain ⟨v2, u2, h1, h2, h3⟩ := ih w (resolveUrl base a.href)
          refine ⟨v2, u2, h1, Or.inr ?_, ?_⟩
          · rcases h2 with ⟨hv2, hu2⟩ | ⟨a2, hm, hd2, hp2, hu2, hlt2⟩
            · exact ⟨a, List.mem_cons_self _ _, hd, by rw [hv2]; exact hp, hu2,
                by rw [hv2]; exact hlt⟩
            · exact ⟨a2, List.mem_cons_of_mem _ hm, hd2, hp2, hu2,
                strLt_trans hlt hlt2⟩
          · intro b hb hbd w2 hw2
            rcases List.mem_cons.mp hb with rfl | hb2
            · rw [hp] at hw2
              injection hw2 with hw2e
              subst hw2e
              rcases h2 with ⟨hv2, _⟩ | ⟨_, _, _, _, _, hlt2⟩
              · rw [hv2]; exact strLt_irrefl _
              · exact strLt_asymm hlt2
            · exact h3 b hb2 hbd w2 hw2
        · have hltf : strLt v w = false := by
            cases hc : strLt v w
            · rfl
            · exact absurd hc hlt
          have hstep : scanStep base pat (some v, some u) a = (some v, some u) := by
            simp [scanStep, hd, hp, hltf]
          rw [List.foldl_cons, hstep]
          obtain ⟨v2, u2, h1, h2, h3⟩ := ih v u
          refine ⟨v2, u2, h1, ?_, ?_⟩
          · rcases h2 with h2 | ⟨a2, hm, hrest⟩
            · exact Or.inl h2
            · exact Or.inr ⟨a2, List.mem_cons_of_mem _ hm, hrest⟩
          · intro b hb hbd w2 hw2
            rcases List.mem_cons.mp hb with rfl | hb2
            · rw [hp] at hw2
              injection hw2 with hw2e
              subst hw2e
              rcases h2 with ⟨hv2, _⟩ | ⟨_, _, _, _, _, hlt2⟩
              · rw [hv2]; exact hltf
              · exact strLt_not_lt_trans hltf hlt2
            · exact h3 b hb2 hbd w2 hw2
    · have hstep : scanStep base pat (some v, some u) a = (some v, some u) := by
        simp [scanStep, hd]
      rw [List.foldl_cons, hstep]
      obtain ⟨v2, u2, h1, h2, h3⟩ := ih v u
      refine ⟨v2, u2, h1, ?_, ?_⟩
      · rcases h2 with h2 | ⟨a2, hm, hrest⟩
        · exact Or.inl h2
        · exact Or.inr ⟨a2, List.mem_cons_of_mem _ hm, hrest⟩
      · intro b hb hbd w hw
        rcases List.mem_cons.mp hb with rfl | hb2
        · exact absurd hbd hd
        · exact h3 b hb2 hbd w hw

theorem scan_from_none (base : List Char) (pat : List Char → Option (List Char)) :
    ∀ page : List Anchor,
    (List.foldl (scanStep base pat) (none, none) page = (none, none) ∧
      ∀ a, a ∈ page → a.directory = true → pat a.href = none) ∨
    (∃ a v, a ∈ page ∧ a.directory = true ∧ pat a.href = some v ∧
      (List.foldl (scanStep base pat) (none, none) page).2 =
        some (resolveUrl base a.href) ∧
      ∀ b, b ∈ page → b.directory = true → ∀ w, pat b.href = some w →
        strLt v w = false) := by
  intro page
  induction page with
  | nil => exact Or.inl ⟨rfl, by intro a ha; cases ha⟩
  | cons a rest ih =>
    by_cases hd : a.directory = true
    · cases hp : pat a.href with
      | none =>
        have hstep : scanStep base pat (none, none) a = (none, none) := by
          simp [scanStep, hd, hp]
        rw [List.foldl_cons, hstep]
        rcases ih with ⟨h1, h2⟩ | ⟨a2, v, hm, hd2, hp2, hu, hmax⟩
        · refine Or.inl ⟨h1, ?_⟩
          intro b hb hbd
          rcases List.mem_cons.mp hb with rfl | hb2
          · exact hp
          · exact h2 b hb2 hbd
        · refine Or.inr ⟨a2, v, List.mem_cons_of_mem _ hm, hd2, hp2, hu, ?_⟩
          intro b hb hbd w hw
          rcases List.mem_cons.mp hb with rfl | hb2
          · rw [hp] at hw; cases hw
          · exact hmax b hb2 hbd w hw
      | some w =>
        have hstep : scanStep base pat (none, none) a =
            (some w, some (resolveUrl base a.href)) := by
          simp [scanStep, hd, hp]
        rw [List.foldl_cons, hstep]
        obtain ⟨v2, u2, h1, h2, h3⟩ :=
          scan_from_some base pat rest w (resolveUrl base a.href)
        right
        rcases h2 with ⟨hv2, hu2⟩ | ⟨a2, hm, hd2, hp2, hu2, hlt2⟩
        · refine ⟨a, v2, List.mem_cons_self _ _, hd, by rw [hv2]; exact hp,
            by rw [h1, hu2], ?_⟩
          intro b hb hbd w2 hw2
          rcases List.mem_cons.mp hb with rfl | hb2
          · rw [hp] at hw2
            injection hw2 with hw2e
            subst hw2e
            rw [hv2]; exact strLt_irrefl _
          · exact h3 b hb2 hbd w2 hw2
        · refine ⟨a2, v2, List.mem_cons_of_mem _ hm, hd2, hp2,
            by rw [h1, hu2], ?_⟩
          intro b hb hbd w2 hw2
          rcases List.mem_cons.mp hb with rfl | hb2
          · rw [hp] at hw2
            injection hw2 with hw2e
            subst hw2e
            exact strLt_asymm hlt2
          · exact h3 b hb2 hbd w2 hw2
    · have hstep : scanStep base pat (none, none) a = (none, none) := by
        simp [scanStep, hd]
      rw [List.foldl_cons, hstep]
      rcases ih with ⟨h1, h2⟩ | ⟨a2, v, hm, hd2, hp2, hu, hmax⟩
      · refine Or.inl ⟨h1, ?_⟩
        intro b hb hbd
        rcases List.mem_cons.mp hb with rfl | hb2
        · exact absurd hbd hd
        · exact h2 b hb2 hbd
      · refine Or.inr ⟨a2, v, List.mem_cons_of_mem _ hm, hd2, hp2, hu, ?_⟩
        intro b hb hbd w hw
        rcases List.mem_cons.mp hb with rfl | hb2
        · exact absurd hbd hd
        · exact hmax b hb2 hbd w hw

theorem walker_sound {base : List Char} {pat : List Char → Option (List Char)}
    {page : List Anchor} {u : List Char}
    (h : findLatestDirectoryUrl base pat page = some u) :
    ∃ a v, a ∈ page ∧ a.directory = true ∧ pat a.href = some v ∧
      u = resolveUrl base a.href ∧
      ∀ b, b ∈ page → b.directory = true → ∀ w, pat b.href = some w →
        strLt v w = false := by
  rcases scan_from_none base pat page with ⟨h1, _⟩ | ⟨a, v, hm, hd, hp, hu, hmax⟩
  · rw [findLatestDirectoryUrl, h1] at h
    cases h
  · rw [findLatestDirectoryUrl, hu] at h
    injection h with he
    exact ⟨a, v, hm, hd, hp, he.symm, hmax⟩

/-- Claim C6: for every listing page and pattern, when at least one directory
hyperlink matches the pattern, `findLatestDirectoryUrl` returns an entry
whose captured token is lexicographically greatest under string comparison,
resolved to an absolute URL against the listing URL. -/
theorem c6_walker_max (base : List Char) (pat : List Char → Option (List Char))
    (page : List Anchor)
    (h : ∃ a, a ∈ page ∧ a.directory = true ∧ (pat a.href).isSome = true) :
    ∃ a v, a ∈ page ∧ a.directory = true ∧ pat a.href = some v ∧
      findLatestDirectoryUrl base pat page = some (resolveUrl base a.href) ∧
      ∀ b, b ∈ page → b.directory = true → ∀ w, pat b.href = some w →
        strLt v w = false := by
  rcases scan_from_none base pat page with ⟨_, hall⟩ | ⟨a, v, hm, hd, hp, hu, hmax⟩
  · obtain ⟨a, ha, had, hsome⟩ := h
    rw [hall a ha had] at hsome
    cases hsome
  · exact ⟨a, v, hm, hd, hp, hu, hmax⟩

/-- Witness for C6 on a concrete two-entry listing: the walker returns the
entry with the greater captured year-month token. -/
theorem c6_walker_max_witness :
    ∃ a v, a ∈ [Anchor.mk true (("/202503/").data), Anchor.mk true (("/202504/").data)] ∧
      a.directory = true ∧ yearMonthPat a.href = some v ∧
      findLatestDirectoryUrl (("http://data.nadocast.com/").data) yearMonthPat
        [Anchor.mk true (("/202503/").data), Anchor.mk true (("/202504/").data)] =
        some (resolveUrl (("http://data.nadocast.com/").data) a.href) ∧
      ∀ b, b ∈ [Anchor.mk true (("/202503/").data), Anchor.mk true (("/202504/").data)] →
        b.directory = true → ∀ w, yearMonthPat b.href = some w → strLt v w = false :=
  c6_walker_max (("http://data.nadocast.com/").data) yearMonthPat
    [Anchor.mk true (("/202503/").data), Anchor.mk true (("/202504/").data)]
    ⟨Anchor.mk true (("/202503/").data), by decide⟩

/-! ## Image Selector: `findTornadoImageUrls` of scraper.ts

`TORNADO_IMG_REGEX = /_(sig_)?tornado_.*\.png$/i`; a link is pushed when its
href matches this pattern and contains neither `abs_calib` nor `life_risk`.
The selector iterates all anchors (no `directory` class filter). -/

/-- Whether `_(sig_)?tornado_.*\.png$` matches starting at the head of `l`
(argument already lowercased for the `i` flag). -/
def tornadoMatchAt (l : List Char) : Bool :=
  (leadsWith l (("_sig_tornado_").data) && endsWith (l.drop 13) ((".png").data)) ||
  (leadsWith l (("_tornado_").data) && endsWith (l.drop 9) ((".png").data))

/-- Unanchored regex search: tries a match at every start position. -/
def tornadoScan : List Char → Bool
  | [] => false
  | c :: rest => tornadoMatchAt (c :: rest) || tornadoScan rest

/-- `TORNADO_IMG_REGEX.test(href)` with the case-insensitive flag. -/
def tornadoImgTest (href : List Char) : Bool :=
  tornadoScan (href.map Char.toLower)

/-- `findTornadoImageUrls(runDirUrl)` over a run-directory listing: the loop
over all anchors pushing resolved URLs of matching, non-excluded hrefs is
exactly a filter followed by a map. -/
def findTornadoImageUrls (runDirUrl : List Char) (page : List Anchor) :
    List (List Char) :=
  (page.filter fun a =>
      tornadoImgTest a.href && !(hasSub a.href (("abs_calib").data))
        && !(hasSub a.href (("life_risk").data))).map
    fun a => resolveUrl runDirUrl a.href

/-- Claim C7: the Image Selector includes a link exactly when its href
matches the tornado image pattern and contains neither exclusion substring
(`abs_calib`, `life_risk`); an href containing an exclusion substring is
excluded even if it matches the inclusion pattern. -/
theorem c7_image_selector (runDirUrl : List Char) (page : List Anchor)
    (x : List Char) :
    x ∈ findTornadoImageUrls runDirUrl page ↔
      ∃ a, a ∈ page ∧ x = resolveUrl runDirUrl a.href ∧
        tornadoImgTest a.href = true ∧
        hasSub a.href (("abs_calib").data) = false ∧
        hasSub a.href (("life_risk").data) = false := by
  constructor
  · intro hx
    obtain ⟨a, ha, hres⟩ := List.mem_map.mp hx
    have hm := List.mem_filter.mp ha
    have hc := hm.2
    simp only [Bool.and_eq_true, Bool.not_eq_true'] at hc
    exact ⟨a, hm.1, hres.symm, hc.1.1, hc.1.2, hc.2⟩
  · rintro ⟨a, ha, rfl, h1, h2, h3⟩
    refine List.mem_map.mpr ⟨a, List.mem_filter.mpr ⟨ha, ?_⟩, rfl⟩
    simp only [Bool.and_eq_true, Bool.not_eq_true']
    exact ⟨⟨h1, h2⟩, h3⟩

/-! ## Run Locator: `findLatestRunInfo` of scraper.ts

The three listing pages fetched during one run-location are passed in
explicitly; a fetch/scrape error corresponds to no claim-relevant run and is
outside the pure model (the source catches it and returns null). -/

structure RunInfo where
  runId : List Char
  runUrl : List Char
deriving DecidableEq

/-- `findLatestRunInfo()`: three Directory Walker stages, re-extraction of
the tokens from the stage URLs, and the composed run identifier
`dayYYYYMMDD ++ "_" ++ runTime`. -/
def findLatestRunInfo (baseUrl : List Char)
    (rootPage monthPage dayPage : List Anchor) : Option RunInfo :=
  match findLatestDirectoryUrl baseUrl yearMonthPat rootPage with
  | none => none
  | some latestYearMonthUrl =>
    match monthSuffixPat latestYearMonthUrl with
    | none => none
    | some _ =>
      match findLatestDirectoryUrl latestYearMonthUrl daySuffixPat monthPage with
      | none => none
      | some latestDayUrl =>
        match daySuffixPat latestDayUrl with
        | none => none
        | some dayYYYYMMDD =>
          match findLatestDirectoryUrl latestDayUrl runSuffixPat dayPage with
          | none => none
          | some latestRunUrl =>
            match runSuffixPat latestRunUrl with
            | none => none
            | some runTime =>
              some (RunInfo.mk (dayYYYYMMDD ++ '_' :: runTime) latestRunUrl)

/-- Claim C5: whenever the Run Locator succeeds, the returned identifier is
exactly the date token captured at the day stage, an underscore, and the
time token captured at the run stage. -/
theorem c5_run_identifier (baseUrl : List Char)
    (rootPage monthPage dayPage : List Anchor) (info : RunInfo)
    (h : findLatestRunInfo baseUrl rootPage monthPage dayPage = some info) :
    ∃ date time, info.runId = date ++ '_' :: time ∧
      (∃ a, a ∈ monthPage ∧ a.directory = true ∧ daySuffixPat a.href = some date) ∧
      (∃ a, a ∈ dayPage ∧ a.directory = true ∧ runSuffixPat a.href = some time) := by
  unfold findLatestRunInfo at h
  split at h
  · cases h
  rename_i ymUrl e1
  split at h
  · cases h
  rename_i ym e2
  split at h
  · cases h
  rename_i dayUrl e3
  split at h
  · cases h
  rename_i date e4
  split at h
  · cases h
  rename_i runUrl e5
  split at h
  · cases h
  rename_i time e6
  injection h with he
  obtain ⟨a3, v3, hm3, hd3, hp3, hu3, _⟩ := walker_sound e3
  obtain ⟨a5, v5, hm5, hd5, hp5, hu5, _⟩ := walker_sound e5
  refine ⟨date, time, by rw [← he], ⟨a3, hm3, hd3, ?_⟩, ⟨a5, hm5, hd5, ?_⟩⟩
  · obtain ⟨p, hp⟩ := resolveUrl_eq_append ymUrl a3.href
    have hext : daySuffixPat dayUrl = some v3 := by
      rw [hu3, hp]
      exact tokenSuffixPat_append digitsOk 8 p a3.href v3 hp3
    rw [e4] at hext
    injection hext with hv
    rw [← hv] at hp3
    exact hp3
  · obtain ⟨p, hp⟩ := resolveUrl_eq_append dayUrl a5.href
    have hext : runSuffixPat runUrl = some v5 := by
      rw [hu5, hp]
      exact tokenSuffixPat_append isRunTokenB 4 p a5.href v5 hp5
    rw [e6] at hext
    injection hext with hv
    rw [← hv] at hp5
    exact hp5

/-- Witness for C5 on concrete listing pages: date token `20250408` and time
token `t00z` yield run identifier `20250408_t00z`. -/
theorem c5_run_identifier_witness :
    ∃ date time,
      (RunInfo.mk (("20250408_t00z").data)
        (("http://data.nadocast.com/202504/20250408/t00z/").data)).runId =
        date ++ '_' :: time ∧
      (∃ a, a ∈ [Anchor.mk true (("/202504/20250408/").data)] ∧
        a.directory = true ∧ daySuffixPat a.href = some date) ∧
      (∃ a, a ∈ [Anchor.mk true (("/202504/20250408/t00z/").data)] ∧
        a.directory = true ∧ runSuffixPat a.href = some time) :=
  c5_run_identifier (("http://data.nadocast.com/").data)
    [Anchor.mk true (("/202504/").data)]
    [Anchor.mk true (("/202504/20250408/").data)]
    [Anchor.mk true (("/202504/20250408/t00z/").data)]
    (RunInfo.mk (("20250408_t00z").data)
      (("http://data.nadocast.com/202504/20250408/t00z/").data))
    (by decide)

/-! ## Publisher: bluesky_notifier.ts

Network outcomes are passed in explicitly: each image carries the number of
upload attempts that fail before one would succeed, the login is given its
failure count, and the submit step is given the outcome of each attempt.
Retry loops become structural recursion on the remaining loop budget
(`MAX_RETRIES - attempts`), mirroring the `while (attempts < MAX_RETRIES)`
loops of the source; the fixed delays between attempts are pure timing and
carry no data. -/

def MAX_POST_LENGTH : Nat := 300

def MAX_IMAGES_PER_POST : Nat := 4

def MAX_RETRIES : Nat := 3

def RETRY_DELAY_MS : Nat := 5000

/-- An image buffer together with the number of upload attempts on it that
fail before an attempt would succeed. -/
structure ImgUpload where
  name : List Char
  failCount : Nat
deriving DecidableEq

/-- The `uploadedImages` entry: blob reference (modelled by the image name)
and alt text. -/
structure UploadedImage where
  image : List Char
  altText : List Char
deriving DecidableEq

def defaultAltText : List Char := ("Nadocast forecast image").data

def uploadFailMsg : List Char := ("Failed to upload image after retries").data

/-- The per-image `while (attempts < MAX_RETRIES && !success)` loop of
`uploadImages`: attempt number `attempts` fails when `attempts < fails`; on
failure `attempts` is incremented and the loop throws once it reaches
`MAX_RETRIES`.  The fuel argument is the remaining loop budget
`MAX_RETRIES - attempts` (the fuel-exhausted arm is unreachable from the
initial call because the throw fires first). -/
def uploadGo (fails : Nat) : Nat → Nat → Except (List Char) Unit
  | _, 0 => Except.ok ()
  | attempts, r + 1 =>
    if attempts < fails then
      if MAX_RETRIES ≤ attempts + 1 then Except.error uploadFailMsg
      else uploadGo fails (attempts + 1) r
    else Except.ok ()

def uploadOne (fails : Nat) : Except (List Char) Unit :=
  uploadGo fails 0 MAX_RETRIES

/-- The alt text for the current index, `altTexts[i] || default` (an absent
or empty entry falls back to the generic text). -/
def altFor (alts : List (List Char)) : List Char :=
  match alts with
  | [] => defaultAltText
  | a :: _ => if a.isEmpty then defaultAltText else a

/-- The `for` loop of `uploadImages`: each image is uploaded with its retry
loop and pushed with `altTexts[i] || default`; a throw aborts the whole
call. -/
def uploadSeq : List ImgUpload → List (List Char) → Except (List Char) (List UploadedImage)
  | [], _ => Except.ok []
  | img :: rest, alts =>
    match uploadOne img.failCount with
    | Except.error e => Except.error e
    | Except.ok _ =>
      match uploadSeq rest alts.tail with
      | Except.error e => Except.error e
      | Except.ok us => Except.ok (UploadedImage.mk img.name (altFor alts) :: us)

/-- The alt-text padding step: when the counts differ the source pads
`altTexts` with the generic text.  (When `altTexts` is longer, the source's
`Array(images.length - altTexts.length)` would throw a `RangeError`; the
model's truncated `Nat` subtraction pads nothing instead.  That branch is
not exercised by any theorem below: after the slice the alt list is never
longer than the image list in the cases proved.) -/
def uploadSliced (images2 : List ImgUpload) (alts : List (List Char)) :
    Except (List Char) (List UploadedImage) :=
  uploadSeq images2
    (if images2.length = alts.length then alts
     else alts ++ List.replicate (images2.length - alts.length) defaultAltText)

/-- `uploadImages(images, altTexts)`: empty input returns `[]`; more than
`MAX_IMAGES_PER_POST` candidates are cut to the first four (both lists);
then the images are uploaded in their given order. -/
def uploadImages (images : List ImgUpload) (altTexts : List (List Char)) :
    Except (List Char) (List UploadedImage) :=
  if images.length = 0 then Except.ok []
  else
    uploadSliced
      (if MAX_IMAGES_PER_POST < images.length then images.take MAX_IMAGES_PER_POST
       else images)
      (if MAX_IMAGES_PER_POST < images.length then altTexts.take MAX_IMAGES_PER_POST
       else altTexts)

/-- The truncation step of `createPost`:
`postText.slice(0, MAX_POST_LENGTH - 3) + "..."` when over the limit. -/
def truncatePostText (text : List Char) : List Char :=
  if MAX_POST_LENGTH < text.length then
    text.take (MAX_POST_LENGTH - 3) ++ (("...").data)
  else text

/-- Outcome of one `agent.post` attempt. -/
inductive SubmitOutcome
  | accepted
  | rateLimited
  | failed
deriving DecidableEq

def postFailMsg : List Char := ("Failed to create post after retries").data

/-- The submit retry loop of `createPost`: on a rate-limit error the source
waits longer and re-enters the loop WITHOUT the `attempts < MAX_RETRIES`
throw check, so when the final attempts fail rate-limited the `while`
condition just becomes false and the function returns normally without
having posted — modelled by `Except.ok false`. -/
def createPostGo (behavior : Nat → SubmitOutcome) : Nat → Nat → Except (List Char) Bool
  | _, 0 => Except.ok false
  | attempts, r + 1 =>
    match behavior attempts with
    | SubmitOutcome.accepted => Except.ok true
    | SubmitOutcome.rateLimited => createPostGo behavior (attempts + 1) r
    | SubmitOutcome.failed =>
      if attempts + 1 < MAX_RETRIES then createPostGo behavior (attempts + 1) r
      else Except.error postFailMsg

def createPostLoop (behavior : Nat → SubmitOutcome) : Except (List Char) Bool :=
  createPostGo behavior 0 MAX_RETRIES

/-- Result of `createPost`: a post was submitted (with its final text and
embedded images), or the function returned without submitting anything. -/
inductive PostResult
  | posted (text : List Char) (images : List UploadedImage)
  | silent
deriving DecidableEq

/-- `createPost(text, images)`: truncate, compose the record (RichText facet
detection and the record fields are formatting only), then the submit retry
loop. -/
def createPost (text : List Char) (images : List UploadedImage)
    (behavior : Nat → SubmitOutcome) : Except (List Char) PostResult :=
  match createPostLoop behavior with
  | Except.error e => Except.error e
  | Except.ok true => Except.ok (PostResult.posted (truncatePostText text) images)
  | Except.ok false => Except.ok PostResult.silent

def loginFailMsg : List Char := ("Failed to log into Bluesky after retries").data

/-- The `login` retry loop, same shape as the upload retry loop. -/
def loginGo (fails : Nat) : Nat → Nat → Except (List Char) Unit
  | _, 0 => Except.ok ()
  | attempts, r + 1 =>
    if attempts < fails then
      if MAX_RETRIES ≤ attempts + 1 then Except.error loginFailMsg
      else loginGo fails (attempts + 1) r
    else Except.ok ()

def login (fails : Nat) : Except (List Char) Unit :=
  loginGo fails 0 MAX_RETRIES

/-- `notifyBluesky(postText, imageBuffers, altTexts)`: login when no session
is held, upload the images, create the post; any error is re-thrown. -/
def notifyBluesky (hasSession : Bool) (loginFails : Nat)
    (images : List ImgUpload) (altTexts : List (List Char))
    (postText : List Char) (submit : Nat → SubmitOutcome) :
    Except (List Char) PostResult :=
  match (if hasSession then Except.ok () else login loginFails) with
  | Except.error e => Except.error e
  | Except.ok _ =>
    match uploadImages images altTexts with
    | Except.error e => Except.error e
    | Except.ok us => createPost postText us submit

theorem uploadGo_succ (fails a r : Nat) :
    uploadGo fails a (r + 1) =
      if a < fails then
        if MAX_RETRIES ≤ a + 1 then Except.error uploadFailMsg
        else uploadGo fails (a + 1) r
      else Except.ok () := rfl

theorem uploadOne_ok {f : Nat} (h : f < MAX_RETRIES) : uploadOne f = Except.ok () := by
  have h3 : f < 3 := h
  interval_cases f <;> rfl

theorem uploadOne_err {f : Nat} (h : MAX_RETRIES ≤ f) :
    uploadOne f = Except.error uploadFailMsg := by
  have h3 : (3:Nat) ≤ f := h
  show uploadGo f 0 MAX_RETRIES = _
  rw [show MAX_RETRIES = 2 + 1 from rfl, uploadGo_succ,
    if_pos (by omega : 0 < f), if_neg (by decide : ¬ MAX_RETRIES ≤ 0 + 1),
    show (2:Nat) = 1 + 1 from rfl, uploadGo_succ,
    if_pos (by omega : 0 + 1 < f), if_neg (by decide : ¬ MAX_RETRIES ≤ 0 + 1 + 1),
    show (1:Nat) = 0 + 1 from rfl, uploadGo_succ,
    if_pos (by omega : 0 + 1 + 1 < f),
    if_pos (by decide : MAX_RETRIES ≤ 0 + 1 + 1 + 1)]

theorem uploadSeq_all_ok (l : List ImgUpload) : ∀ alts : List (List Char),
    (∀ i, i ∈ l → i.failCount < MAX_RETRIES) →
    ∃ us, uploadSeq l alts = Except.ok us ∧
      us.map UploadedImage.image = l.map ImgUpload.name := by
  induction l with
  | nil => intro alts _; exact ⟨[], rfl, rfl⟩
  | cons img rest ih =>
    intro alts h
    obtain ⟨us, h1, h2⟩ := ih alts.tail (fun i hi => h i (List.mem_cons_of_mem _ hi))
    have hu : uploadOne img.failCount = Except.ok () :=
      uploadOne_ok (h img (List.mem_cons_self _ _))
    refine ⟨UploadedImage.mk img.name (altFor alts) :: us, ?_, ?_⟩
    · simp only [uploadSeq, hu]
      rw [h1]
    · simp [h2]

theorem uploadSeq_err (l : List ImgUpload) : ∀ alts : List (List Char),
    (∃ i, i ∈ l ∧ MAX_RETRIES ≤ i.failCount) →
    ∃ e, uploadSeq l alts = Except.error e := by
  induction l with
  | nil =>
    rintro alts ⟨i, hi, _⟩
    cases hi
  | cons img rest ih =>
    rintro alts ⟨i, hi, hf⟩
    by_cases hc : MAX_RETRIES ≤ img.failCount
    · refine ⟨uploadFailMsg, ?_⟩
      simp only [uploadSeq, uploadOne_err hc]
    · rcases List.mem_cons.mp hi with rfl | hi2
      · exact absurd hf hc
      · obtain ⟨e, he⟩ := ih alts.tail ⟨i, hi2, hf⟩
        refine ⟨e, ?_⟩
        simp only [uploadSeq, uploadOne_ok (Nat.lt_of_not_le hc), he]

def imgsFive : List ImgUpload :=
  [ImgUpload.mk (("a_tornado.png").data) 0,
   ImgUpload.mk (("b_sig_tornado.png").data) 0,
   ImgUpload.mk (("c_tornado.png").data) 0,
   ImgUpload.mk (("d_sig_tornado.png").data) 0,
   ImgUpload.mk (("e_tornado.png").data) 0]

def altsFive : List (List Char) :=
  [("alt a").data, ("alt b").data, ("alt c").data, ("alt d").data, ("alt e").data]

/-- Counterexample to claim C2: on five candidates (two of them `sig_`),
`uploadImages` keeps the first four in their original order; it performs no
`sig_`-first priority sort, so the output order differs from the order the
claim requires. -/
theorem c2_priority_sort_counterexample :
    (uploadImages imgsFive altsFive).map (List.map UploadedImage.image) =
      Except.ok [("a_tornado.png").data, ("b_sig_tornado.png").data,
        ("c_tornado.png").data, ("d_sig_tornado.png").data] ∧
    [("a_tornado.png").data, ("b_sig_tornado.png").data, ("c_tornado.png").data,
        ("d_sig_tornado.png").data] ≠
      [("b_sig_tornado.png").data, ("d_sig_tornado.png").data,
        ("a_tornado.png").data, ("c_tornado.png").data] :=
  ⟨by rfl, by decide⟩

/-- Claim C2 (amended): for every candidate list with more than four
elements whose uploads succeed within the retry budget, the Publisher keeps
the FIRST four images in their original relative order (no `sig_` priority
sort) and truncates the rest. -/
theorem c2_truncation_amended (images : List ImgUpload) (altTexts : List (List Char))
    (hok : ∀ i, i ∈ images → i.failCount < MAX_RETRIES)
    (hlen : MAX_IMAGES_PER_POST < images.length) :
    ∃ us, uploadImages images altTexts = Except.ok us ∧
      us.map UploadedImage.image = (images.take MAX_IMAGES_PER_POST).map ImgUpload.name := by
  have h4 : (4:Nat) < images.length := hlen
  unfold uploadImages uploadSliced
  rw [if_neg (by omega : ¬ images.length = 0), if_pos hlen, if_pos hlen]
  exact uploadSeq_all_ok (images.take MAX_IMAGES_PER_POST) _
    (fun i hi => hok i (List.take_subset _ _ hi))

/-- Witness for the amended C2 at the concrete five-element candidate list. -/
theorem c2_truncation_amended_witness :
    ∃ us, uploadImages imgsFive altsFive = Except.ok us ∧
      us.map UploadedImage.image = (imgsFive.take MAX_IMAGES_PER_POST).map ImgUpload.name :=
  c2_truncation_amended imgsFive altsFive (by decide) (by decide)

/-- Counterexample to claim C3: a batch whose first image exhausts the
retry maximum makes `uploadImages` throw, failing the whole publish, even
though the second image would upload fine (the claim says the first image
is merely dropped). -/
theorem c3_upload_drop_counterexample :
    uploadImages [ImgUpload.mk (("x_tornado_a.png").data) 3,
        ImgUpload.mk (("x_tornado_b.png").data) 0]
      [("alt a").data, ("alt b").data] = Except.error uploadFailMsg := by
  rfl

/-- Claim C3 (amended): an image whose blob upload exhausts the retry
maximum makes the whole publish fail with an error (it is not dropped), and
an empty image set is not itself a failure: uploading nothing returns the
empty list (the post is then submitted without embeds). -/
theorem c3_upload_failure_amended :
    (∀ (images : List ImgUpload) (altTexts : List (List Char)),
      (∃ i, i ∈ (if MAX_IMAGES_PER_POST < images.length
            then images.take MAX_IMAGES_PER_POST else images) ∧
          MAX_RETRIES ≤ i.failCount) →
      ∃ e, uploadImages images altTexts = Except.error e) ∧
    (∀ altTexts : List (List Char), uploadImages [] altTexts = Except.ok []) := by
  constructor
  · rintro images altTexts ⟨i, hi, hf⟩
    have hne : ¬ images.length = 0 := by
      intro h0
      rw [List.length_eq_zero] at h0
      subst h0
      simp at hi
    unfold uploadImages uploadSliced
    rw [if_neg hne]
    exact uploadSeq_err _ _ ⟨i, hi, hf⟩
  · intro altTexts
    rfl

/-- Witness for the amended C3: a single exhausted image errors; the empty
batch returns the empty list. -/
theorem c3_upload_failure_amended_witness :
    (∃ e, uploadImages [ImgUpload.mk (("y_tornado.png").data) 5] [] =
      Except.error e) ∧
    uploadImages [] [] = Except.ok [] :=
  ⟨c3_upload_failure_amended.1 [ImgUpload.mk (("y_tornado.png").data) 5] []
      ⟨ImgUpload.mk (("y_tornado.png").data) 5, by decide, by decide⟩,
    c3_upload_failure_amended.2 []⟩

/-- Claim C4: evaluation of the code at the failing input.  When every
submit attempt reports the rate-limit condition, the retry loop increments
`attempts` on the rate-limit branch without the throw check, the `while`
condition becomes false, and `createPost` returns normally although no post
was submitted; `notifyBluesky` therefore reports overall success
(`Except.ok PostResult.silent`) instead of the Failure the claim (and the
function's own `@throws` documentation) requires. -/
theorem c4_submit_silent_return :
    notifyBluesky true 0 [] [] (("NADOCast Tornado Forecast").data)
      (fun _ => SubmitOutcome.rateLimited) = Except.ok PostResult.silent := by
  rfl

/-- Claim C8: the Publisher truncates post text only when it exceeds the
platform limit of 300 characters; the truncated text has length exactly 300
and ends in the ellipsis marker; text at or under the limit is unchanged. -/
theorem c8_truncate (t : List Char) :
    (MAX_POST_LENGTH < t.length →
      (truncatePostText t).length = MAX_POST_LENGTH ∧
      endsWith (truncatePostText t) (("...").data) = true) ∧
    (t.length ≤ MAX_POST_LENGTH → truncatePostText t = t) := by
  constructor
  · intro h
    have h300 : (300:Nat) < t.length := h
    unfold truncatePostText
    rw [if_pos h]
    constructor
    · have htake : (t.take (MAX_POST_LENGTH - 3)).length = 297 := by
        rw [List.length_take]
        have h2 : MAX_POST_LENGTH - 3 = 297 := rfl
        rw [h2]
        omega
      rw [List.length_append, htake]
      rfl
    · unfold endsWith
      rw [List.reverse_append]
      exact leadsWith_refl_append _ _
  · intro h
    unfold truncatePostText
    rw [if_neg (Nat.not_lt.mpr h)]

/-- Witness for C8: a 301-character text truncates to exactly 300 ending in
the marker; a short text is unchanged. -/
theorem c8_truncate_witness :
    (truncatePostText (List.replicate 301 'a')).length = MAX_POST_LENGTH ∧
    endsWith (truncatePostText (List.replicate 301 'a')) (("...").data) = true ∧
    truncatePostText (("short post").data) = ("short post").data :=
  ⟨((c8_truncate (List.replicate 301 'a')).1 (by rw [List.length_replicate]; decide)).1,
    ((c8_truncate (List.replicate 301 'a')).1 (by rw [List.length_replicate]; decide)).2,
    (c8_truncate (("short post").data)).2 (by decide)⟩

/-! ## State Store: state_manager.ts

The state file content is passed explicitly: `none` models an absent file.
`trim` is modelled on the ASCII whitespace characters that occur in run-id
files (JavaScript `String.prototype.trim` additionally strips Unicode
space separators, which never appear in this data). -/

/-- Whitespace test for the trim model: space, tab, newline, carriage
return, vertical tab, form feed. -/
def isWsChar (c : Char) : Bool :=
  c == ' ' || c == '\t' || c == '\n' || c == '\r' || c.toNat == 11 || c.toNat == 12

/-- `content.trim()`: drop whitespace from both ends. -/
def trimChars (l : List Char) : List Char :=
  ((l.dropWhile isWsChar).reverse.dropWhile isWsChar).reverse

/-- `writeLastProcessedRunId(runId)`: the file content written is
`runId.trim()`. -/
def writeLastProcessedRunId (runId : List Char) : List Char := trimChars runId

/-- `readLastProcessedRunId()`: absent file is `none`; otherwise the trimmed
content when non-empty, else `none`. -/
def readLastProcessedRunId : Option (List Char) → Option (List Char)
  | none => none
  | some content =>
    if 0 < (trimChars content).length then some (trimChars content) else none

theorem dropWhile_self_idem (p : Char → Bool) (l : List Char) :
    (l.dropWhile p).dropWhile p = l.dropWhile p := by
  induction l with
  | nil => rfl
  | cons a t ih =>
    cases h : p a with
    | true => simp [List.dropWhile_cons, h, ih]
    | false => simp [List.dropWhile_cons, h]

theorem dropWhile_head_not (p : Char → Bool) (l : List Char) :
    l.dropWhile p = [] ∨ ∃ c t, l.dropWhile p = c :: t ∧ p c = false := by
  induction l with
  | nil => exact Or.inl rfl
  | cons a t ih =>
    cases h : p a with
    | true => simpa [List.dropWhile_cons, h] using ih
    | false => exact Or.inr ⟨a, t, by simp [List.dropWhile_cons, h], h⟩

theorem trimChars_idem (l : List Char) : trimChars (trimChars l) = trimChars l := by
  unfold trimChars
  set A := l.dropWhile isWsChar with hA
  set B := A.reverse.dropWhile isWsChar with hB
  have h1 : B.reverse.dropWhile isWsChar = B.reverse := by
    have hsplit : A.reverse.takeWhile isWsChar ++ B = A.reverse := by
      rw [hB]
      exact List.takeWhile_append_dropWhile _ _
    have hA2 : A = B.reverse ++ (A.reverse.takeWhile isWsChar).reverse := by
      have hh := congrArg List.reverse hsplit
      rw [List.reverse_append, List.reverse_reverse] at hh
      exact hh.symm
    cases hBr : B.reverse with
    | nil => simp
    | cons c t =>
      have hAs : ∃ s, A = c :: s := by
        refine ⟨t ++ (A.reverse.takeWhile isWsChar).reverse, ?_⟩
        conv_lhs => rw [hA2, hBr]
        rfl
      obtain ⟨s, hAs⟩ := hAs
      have hnc : isWsChar c = false := by
        rcases dropWhile_head_not isWsChar l with h | ⟨c2, t2, he, hp⟩
        · rw [← hA] at h
          rw [h] at hAs
          exact absurd hAs (by simp)
        · rw [← hA] at he
          rw [hAs] at he
          injection he with he1 he2
          rw [he1]
          exact hp
      simp [List.dropWhile_cons, hnc]
  rw [h1, List.reverse_reverse]
  have h2 : B.dropWhile isWsChar = B := by
    rw [hB]
    exact dropWhile_self_idem _ _
  rw [h2]

/-- Claim C10: writing a run identifier and reading back returns the trimmed
identifier when it trims non-empty, `none` when it trims to empty, and for
a canonical identifier (no surrounding whitespace) exactly the identifier. -/
theorem c10_state_roundtrip (r : List Char) :
    (trimChars r ≠ [] →
      readLastProcessedRunId (some (writeLastProcessedRunId r)) = some (trimChars r)) ∧
    (trimChars r = [] →
      readLastProcessedRunId (some (writeLastProcessedRunId r)) = none) ∧
    (trimChars r = r → r ≠ [] →
      readLastProcessedRunId (some (writeLastProcessedRunId r)) = some r) := by
  have hid := trimChars_idem r
  have main : trimChars r ≠ [] →
      readLastProcessedRunId (some (writeLastProcessedRunId r)) = some (trimChars r) := by
    intro h
    show (if 0 < (trimChars (trimChars r)).length then some (trimChars (trimChars r))
      else none) = some (trimChars r)
    rw [hid, if_pos (List.length_pos.mpr h)]
  refine ⟨main, ?_, ?_⟩
  · intro h
    show (if 0 < (trimChars (trimChars r)).length then some (trimChars (trimChars r))
      else none) = none
    rw [hid, h]
    rfl
  · intro hc hne
    have h := main (by rw [hc]; exact hne)
    rw [hc] at h
    exact h

/-- Witness for C10: a canonical run identifier round-trips exactly; an
all-whitespace identifier reads back as `none`. -/
theorem c10_state_roundtrip_witness :
    readLastProcessedRunId (some (writeLastProcessedRunId (("20250408_t00z").data))) =
      some (("20250408_t00z").data) ∧
    readLastProcessedRunId (some (writeLastProcessedRunId [' ', ' '])) = none :=
  ⟨(c10_state_roundtrip (("20250408_t00z").data)).2.2 (by decide) (by decide),
    (c10_state_roundtrip [' ', ' ']).2.1 (by decide)⟩

/-! ## Orchestrator: `checkNadocast` of the monitor entry point

One polling cycle as a pure function of its external inputs: the Run
Locator result, the stored identifier, and the image list with each image's
per-image outcome (fetch failure and post failure are both caught inside
the per-image `try` and the loop continues).  The result records what was
written to the State Store (`none` for no write) and which images were
successfully posted. -/

inductive PostOutcome
  | fetchFailed
  | postFailed
  | posted
deriving DecidableEq

structure CycleResult where
  written : Option (List Char)
  posted : List (List Char)
deriving DecidableEq

/-- `checkNadocast()`: no run found → end; latest equals stored → end; no
images → write state and end; otherwise process each image (failures are
caught and skipped) and then write the state REGARDLESS of the per-image
outcomes. -/
def checkNadocast (latestRun : Option RunInfo) (stored : Option (List Char))
    (images : List (List Char × PostOutcome)) : CycleResult :=
  match latestRun with
  | none => CycleResult.mk none []
  | some run =>
    if stored = some run.runId then CycleResult.mk none []
    else if images.length = 0 then CycleResult.mk (some run.runId) []
    else
      CycleResult.mk (some run.runId)
        ((images.filter fun p => decide (p.2 = PostOutcome.posted)).map Prod.fst)

def c1Run : RunInfo :=
  RunInfo.mk (("20250408_t00z").data)
    (("http://data.nadocast.com/202504/20250408/t00z/").data)

def c1Images : List (List Char × PostOutcome) :=
  [((("nadocast_sig_tornado.png").data), PostOutcome.postFailed)]

/-- Counterexample to claim C1: a cycle that detects a new run, finds one
image and fails to post it (no post submitted — a Publisher Failure) still
writes the new run identifier to the State Store, so the run is NOT retried
on the next interval. -/
theorem c1_state_write_counterexample :
    (checkNadocast (some c1Run) none c1Images).posted = [] ∧
    (checkNadocast (some c1Run) none c1Images).written = some (("20250408_t00z").data) :=
  ⟨by decide, by decide⟩

/-- Claim C1 (amended): the Orchestrator writes the new run identifier
exactly when a new run was detected (latest differs from stored) and the
image scrape completed — after a Publisher Success, after an empty image
list, and also after a Publisher Failure (per-image failures are caught and
the state is updated regardless); only a no-new-run cycle or an aborted
scrape leaves the persisted state unchanged. -/
theorem c1_state_write_amended (latestRun : Option RunInfo)
    (stored : Option (List Char)) (images : List (List Char × PostOutcome)) :
    (checkNadocast latestRun stored images).written =
      match latestRun with
      | none => none
      | some run => if stored = some run.runId then none else some run.runId := by
  cases latestRun with
  | none => rfl
  | some run =>
    by_cases h : stored = some run.runId
    · simp [checkNadocast, h]
    · by_cases h0 : images.length = 0
      · simp [checkNadocast, h, h0]
      · simp [checkNadocast, h, h0]

/-- Claim C9: a cycle in which the latest run identifier equals the stored
identifier (including both absent) ends without writing the State Store. -/
theorem c9_noop_cycle (latestRun : Option RunInfo) (stored : Option (List Char))
    (images : List (List Char × PostOutcome))
    (h : latestRun.map RunInfo.runId = stored) :
    (checkNadocast latestRun stored images).written = none := by
  cases latestRun with
  | none => rfl
  | some run =>
    simp only [Option.map_some'] at h
    subst h
    simp [checkNadocast]

/-- Witness for C9 at a concrete no-op cycle (both identifiers absent). -/
theorem c9_noop_cycle_witness : (checkNadocast none none []).written = none :=
  c9_noop_cycle none none [] rfl
